import Mathlib

/-!
Verification of the frequencyfoundry geometric-inference code.

This file is a shallow embedding, in exact real arithmetic, of the parts of
the repository that the specification's claims are about:

* `src/cracking/triangulation.ts` — observations, rays, the least-squares
  intersector, the 4ⁿ corner sweep (`comprehensiveErrorRadius`) and the
  operative `triangulateEvent`;
* `src/cracking/build_test_utils.ts` — `javaInt` and `computeRelativeCoords`;
* `src/drawing/polygonUtils.ts` — half-planes, the Sutherland–Hodgman clipper,
  `intersectHalfPlanes`, `getWedgeHalfPlanes` and `buildErrorRegion`;
* `src/theForge.ts` — 3-D lines, `findIntersection`, `clampIntersection` and
  `calculateAccurateWitherSpawn`;
* `src/Foundry.ts` — the sound-cache ("coincidence gate") update step.

JavaScript `number` values are modelled as real numbers (`ℝ`); floating-point
rounding is abstracted away, so algebraic identities hold exactly.  The one
place where the JavaScript value `Infinity` is produced (`theForge.ts`'s
`error` field) is modelled with `EReal`.
-/

noncomputable section

namespace FF

/-- A 2-D point, `Point` from `src/cracking/triangulation.ts`. -/
structure Point where
  x : ℝ
  z : ℝ

@[ext]
lemma Point.ext_xz {p q : Point} (hx : p.x = q.x) (hz : p.z = q.z) : p = q := by
  cases p; cases q; simp_all

/-- An observation, `Observation` from `src/cracking/triangulation.ts`:
the observer's absolute position and the reported relative block coordinate.
The true computed coordinate before flooring lies in
`[relX, relX+1) × [relZ, relZ+1)`. -/
structure Observation where
  playerX : ℝ
  playerZ : ℝ
  relX : ℝ
  relZ : ℝ

/-- A ray: origin plus a direction vector, `Ray` from
`src/cracking/triangulation.ts`. -/
structure Ray where
  origin : Point
  d : Point

/-- `Math.hypot(x, z)`. -/
def hypot (x z : ℝ) : ℝ := Real.sqrt (x ^ 2 + z ^ 2)

/-- `normalize` from `src/cracking/triangulation.ts`: divide a 2-D vector by
its length. -/
def normalize (v : Point) : Point :=
  let len := hypot v.x v.z
  ⟨v.x / len, v.z / len⟩

/-- Projection-matrix entry `m00 = 1 - d.x * d.x` from the loop body of
`computeLeastSquaresIntersection`. -/
def m00 (r : Ray) : ℝ := 1 - r.d.x * r.d.x

/-- Projection-matrix entry `m01 = -d.x * d.z`. -/
def m01 (r : Ray) : ℝ := -(r.d.x * r.d.z)

/-- Projection-matrix entry `m10 = -d.x * d.z` (the source accumulates it
separately from `m01`, with the same value). -/
def m10 (r : Ray) : ℝ := -(r.d.x * r.d.z)

/-- Projection-matrix entry `m11 = 1 - d.z * d.z`. -/
def m11 (r : Ray) : ℝ := 1 - r.d.z * r.d.z

/-- Accumulated normal-matrix entry `A00 = Σ m00`. -/
def A00 (rays : List Ray) : ℝ := (rays.map m00).sum

/-- Accumulated normal-matrix entry `A01 = Σ m01`. -/
def A01 (rays : List Ray) : ℝ := (rays.map m01).sum

/-- Accumulated normal-matrix entry `A10 = Σ m10`. -/
def A10 (rays : List Ray) : ℝ := (rays.map m10).sum

/-- Accumulated normal-matrix entry `A11 = Σ m11`. -/
def A11 (rays : List Ray) : ℝ := (rays.map m11).sum

/-- Accumulated right-hand side `b0 = Σ (m00·ox + m01·oz)`. -/
def b0 (rays : List Ray) : ℝ :=
  (rays.map fun r => m00 r * r.origin.x + m01 r * r.origin.z).sum

/-- Accumulated right-hand side `b1 = Σ (m10·ox + m11·oz)`. -/
def b1 (rays : List Ray) : ℝ :=
  (rays.map fun r => m10 r * r.origin.x + m11 r * r.origin.z).sum

/-- `det = A00 * A11 - A01 * A10` from `computeLeastSquaresIntersection`. -/
def detA (rays : List Ray) : ℝ := A00 rays * A11 rays - A01 rays * A10 rays

/-- The ill-conditioned fallback of `computeLeastSquaresIntersection`:
the average of the ray origins. -/
def centroid (rays : List Ray) : Point :=
  ⟨(rays.map fun r => r.origin.x).sum / rays.length,
   (rays.map fun r => r.origin.z).sum / rays.length⟩

/-- `computeLeastSquaresIntersection` from `src/cracking/triangulation.ts`:
solve the 2×2 normal equations `A·E = b`; when `|det A| < 1e-8` fall back to
averaging the ray origins. -/
def computeLeastSquaresIntersection (rays : List Ray) : Point :=
  if |detA rays| < 1e-8 then centroid rays
  else
    ⟨(A11 rays * b0 rays - A01 rays * b1 rays) / detA rays,
     (-A10 rays * b0 rays + A00 rays * b1 rays) / detA rays⟩

/-- `distance` from `src/cracking/triangulation.ts`: Euclidean distance. -/
def distance (p1 p2 : Point) : ℝ := hypot (p1.x - p2.x) (p1.z - p2.z)

/-- The nominal ray of an observation: direction toward the centre
`(relX + 0.5, relZ + 0.5)` of the uncertainty square, as built by
`computeNominalIntersection`. -/
def nominalRay (obs : Observation) : Ray :=
  ⟨⟨obs.playerX, obs.playerZ⟩,
   normalize ⟨obs.relX + 0.5 - obs.playerX, obs.relZ + 0.5 - obs.playerZ⟩⟩

/-- `computeNominalIntersection` from `src/cracking/triangulation.ts`. -/
def computeNominalIntersection (observations : List Observation) : Point :=
  computeLeastSquaresIntersection (observations.map nominalRay)

/-- Corner selection of `comprehensiveErrorRadius`:
`0 ↦ (relX, relZ)`, `1 ↦ (relX+1, relZ)`, `2 ↦ (relX, relZ+1)`,
`3 ↦ (relX+1, relZ+1)`. -/
def corner (obs : Observation) (cornerIndex : ℕ) : Point :=
  if cornerIndex = 0 then ⟨obs.relX, obs.relZ⟩
  else if cornerIndex = 1 then ⟨obs.relX + 1, obs.relZ⟩
  else if cornerIndex = 2 then ⟨obs.relX, obs.relZ + 1⟩
  else ⟨obs.relX + 1, obs.relZ + 1⟩

/-- The ray through a chosen corner of the uncertainty square, as built by
the inner loop of `comprehensiveErrorRadius`. -/
def cornerRay (obs : Observation) (cornerIndex : ℕ) : Ray :=
  ⟨⟨obs.playerX, obs.playerZ⟩,
   normalize ⟨(corner obs cornerIndex).x - obs.playerX,
              (corner obs cornerIndex).z - obs.playerZ⟩⟩

/-- The ray list of one corner combination: observation `j` receives the
base-4 digit `combo % 4` and the remaining digits go to the rest, exactly as
the `for (let j = 0; j < n; j++)` loop of `comprehensiveErrorRadius` decodes
its counter. -/
def cornerRays : List Observation → ℕ → List Ray
  | [], _ => []
  | obs :: rest, combo => cornerRay obs (combo % 4) :: cornerRays rest (combo / 4)

/-- The `4ⁿ` extreme least-squares solutions enumerated by
`comprehensiveErrorRadius`. -/
def extremePoints (observations : List Observation) : List Point :=
  (List.range (4 ^ observations.length)).map fun i =>
    computeLeastSquaresIntersection (cornerRays observations i)

/-- `comprehensiveErrorRadius` from `src/cracking/triangulation.ts`: the
maximum distance from the nominal estimate to any of the `4ⁿ` extreme
solutions, accumulated exactly as the source's
`if (d > errorRadius) errorRadius = d` loop starting from `0`. -/
def comprehensiveErrorRadius (observations : List Observation) (nominalE : Point) : ℝ :=
  (extremePoints observations).foldl
    (fun errorRadius E =>
      if distance nominalE E > errorRadius then distance nominalE E else errorRadius) 0

/-- The result record of `triangulateEvent`. -/
structure TriangulationResult where
  estimatedX : ℝ
  estimatedZ : ℝ
  errorRadius : ℝ

/-- The operative `triangulateEvent` of `src/cracking/triangulation.ts`
(the second definition in the file, the one in force): `null` exactly on the
empty list, otherwise the nominal intersection annotated with
`comprehensiveErrorRadius`. -/
def triangulateEvent (observations : List Observation) : Option TriangulationResult :=
  if observations.length = 0 then none
  else
    some ⟨(computeNominalIntersection observations).x,
          (computeNominalIntersection observations).z,
          comprehensiveErrorRadius observations (computeNominalIntersection observations)⟩

/-! ### Permutation invariance of the triangulation (claim C1)

All accumulators of `computeLeastSquaresIntersection` are sums over the ray
list, hence invariant under permutations; the `4ⁿ` corner sweep of
`comprehensiveErrorRadius` enumerates, as a multiset, the same extreme
solutions for any ordering of the observations. -/

lemma computeLeastSquaresIntersection_perm {r₁ r₂ : List Ray} (h : r₁.Perm r₂) :
    computeLeastSquaresIntersection r₁ = computeLeastSquaresIntersection r₂ := by
  have h00 := (h.map m00).sum_eq
  have h01 := (h.map m01).sum_eq
  have h10 := (h.map m10).sum_eq
  have h11 := (h.map m11).sum_eq
  have hb0 := (h.map fun r => m00 r * r.origin.x + m01 r * r.origin.z).sum_eq
  have hb1 := (h.map fun r => m10 r * r.origin.x + m11 r * r.origin.z).sum_eq
  have hox := (h.map fun r => r.origin.x).sum_eq
  have hoz := (h.map fun r => r.origin.z).sum_eq
  simp only [computeLeastSquaresIntersection, centroid, detA, A00, A01, A10, A11, b0, b1,
    h00, h01, h10, h11, hb0, hb1, hox, hoz, h.length_eq]

/-- The corner-sweep of a list of observations, abstracted over what is done
with each decoded ray list; `extremePoints` is `sweep · computeLeastSquaresIntersection`. -/
def sweep {α : Type} (observations : List Observation) (F : List Ray → α) : List α :=
  (List.range (4 ^ observations.length)).map fun i => F (cornerRays observations i)

lemma extremePoints_eq_sweep (observations : List Observation) :
    extremePoints observations = sweep observations computeLeastSquaresIntersection := rfl

lemma range_four_mul {α : Type} (m : ℕ) (f : ℕ → α) :
    (List.range (4 * m)).map f
      = (List.range m).flatMap fun q => (List.range 4).map fun r => f (4 * q + r) := by
  induction m with
  | zero => simp
  | succ n ih =>
      have e : 4 * (n + 1) = 4 * n + 1 + 1 + 1 + 1 := by omega
      rw [e, List.range_succ, List.range_succ, List.range_succ, List.range_succ,
        List.range_succ (n := n), List.flatMap_append]
      simp only [List.map_append, ih, List.flatMap_cons, List.flatMap_nil, List.append_nil]
      simp [List.range_succ, List.append_assoc]

lemma sweep_cons {α : Type} (o : Observation) (l : List Observation) (F : List Ray → α) :
    sweep (o :: l) F
      = (List.range (4 ^ l.length)).flatMap fun q =>
          (List.range 4).map fun r => F (cornerRay o r :: cornerRays l q) := by
  unfold sweep
  have e : (4 : ℕ) ^ (o :: l).length = 4 * 4 ^ l.length := by
    simp [pow_succ, Nat.mul_comm]
  rw [e, range_four_mul]
  refine List.flatMap_congr fun q _ => List.map_congr_left fun r hr => ?_
  have hr4 : r < 4 := List.mem_range.mp hr
  have hmod : (4 * q + r) % 4 = r := by
    rw [Nat.mul_add_mod, Nat.mod_eq_of_lt hr4]
  have hdiv : (4 * q + r) / 4 = q := by
    rw [Nat.mul_add_div (by norm_num), Nat.div_eq_of_lt hr4, Nat.add_zero]
  rw [cornerRays, hmod, hdiv]

lemma sweep_cons_multiset {α : Type} (o : Observation) (l : List Observation)
    (F : List Ray → α) :
    (↑(sweep (o :: l) F) : Multiset α)
      = (↑(List.range 4) : Multiset ℕ).bind fun r =>
          ↑(sweep l fun rays => F (cornerRay o r :: rays)) := by
  rw [sweep_cons, ← Multiset.coe_bind]
  have step : ∀ q ∈ (↑(List.range (4 ^ l.length)) : Multiset ℕ),
      (↑((List.range 4).map fun r => F (cornerRay o r :: cornerRays l q)) : Multiset α)
        = Multiset.map (fun r => F (cornerRay o r :: cornerRays l q)) ↑(List.range 4) :=
    fun q _ => rfl
  rw [Multiset.bind_congr step, Multiset.bind_map_comm]
  refine Multiset.bind_congr fun r _ => ?_
  rfl

lemma sweep_perm {α : Type} {l₁ l₂ : List Observation} (h : l₁.Perm l₂) :
    ∀ F : List Ray → α, (∀ r₁ r₂ : List Ray, r₁.Perm r₂ → F r₁ = F r₂) →
      (↑(sweep l₁ F) : Multiset α) = ↑(sweep l₂ F) := by
  induction h with
  | nil => exact fun F _ => rfl
  | cons x h ih =>
      intro F hF
      rw [sweep_cons_multiset, sweep_cons_multiset]
      exact Multiset.bind_congr fun r _ =>
        ih _ (fun r₁ r₂ hp => hF _ _ (hp.cons _))
  | swap x y l =>
      intro F hF
      simp only [sweep_cons_multiset]
      rw [Multiset.bind_bind]
      refine Multiset.bind_congr fun ry _ => Multiset.bind_congr fun rx _ => ?_
      have heq : (fun rays => F (cornerRay x ry :: cornerRay y rx :: rays))
           = fun rays => F (cornerRay y rx :: cornerRay x ry :: rays) := by
        funext rays
        exact hF _ _ (List.Perm.swap _ _ _)
      rw [heq]
  | trans h₁ h₂ ih₁ ih₂ =>
      intro F hF
      exact (ih₁ F hF).trans (ih₂ F hF)

lemma extremePoints_perm {l₁ l₂ : List Observation} (h : l₁.Perm l₂) :
    (extremePoints l₁).Perm (extremePoints l₂) := by
  rw [← Multiset.coe_eq_coe, extremePoints_eq_sweep, extremePoints_eq_sweep]
  exact sweep_perm h computeLeastSquaresIntersection
    fun _ _ hp => computeLeastSquaresIntersection_perm hp

lemma errorRadius_step_eq_max (nominalE E : Point) (errorRadius : ℝ) :
    (if distance nominalE E > errorRadius then distance nominalE E else errorRadius)
      = max errorRadius (distance nominalE E) := by
  rcases lt_or_le errorRadius (distance nominalE E) with hlt | hle
  · rw [if_pos hlt, max_eq_right hlt.le]
  · rw [if_neg (not_lt.mpr hle), max_eq_left hle]

lemma comprehensiveErrorRadius_perm {l₁ l₂ : List Observation} (h : l₁.Perm l₂)
    (nominalE : Point) :
    comprehensiveErrorRadius l₁ nominalE = comprehensiveErrorRadius l₂ nominalE := by
  unfold comprehensiveErrorRadius
  have hstep : (fun errorRadius E =>
      if distance nominalE E > errorRadius then distance nominalE E else errorRadius)
        = fun errorRadius E => max errorRadius (distance nominalE E) := by
    funext errorRadius E
    exact errorRadius_step_eq_max nominalE E errorRadius
  rw [hstep]
  haveI : Std.Commutative fun a b : ℝ => max a b := ⟨fun _ _ => max_comm _ _⟩
  haveI : RightCommutative fun (a : ℝ) (E : Point) => max a (distance nominalE E) :=
    ⟨fun a E E' => Max.right_comm _ _ _⟩
  exact (extremePoints_perm h).foldl_eq 0

lemma computeNominalIntersection_perm {l₁ l₂ : List Observation} (h : l₁.Perm l₂) :
    computeNominalIntersection l₁ = computeNominalIntersection l₂ :=
  computeLeastSquaresIntersection_perm (h.map nominalRay)

/-- C1.  For every list of observations and every permutation of it,
`triangulateEvent` returns the same estimated point `(estimatedX, estimatedZ)`
and the same `errorRadius`.  In the exact real-arithmetic model the results
are equal outright, which in particular is within the claimed 10⁻⁶ floating
tolerance. -/
theorem triangulateEvent_perm_invariant {l₁ l₂ : List Observation} (h : l₁.Perm l₂) :
    triangulateEvent l₁ = triangulateEvent l₂ := by
  unfold triangulateEvent
  rw [h.length_eq, computeNominalIntersection_perm h, comprehensiveErrorRadius_perm h]

/-- Witness for C1 at a concrete two-observation batch and its transposition. -/
theorem triangulateEvent_perm_invariant_witness :
    ([⟨0, 0, 10, 3⟩, ⟨100, 7, 20, 30⟩] : List Observation).Perm
        [⟨100, 7, 20, 30⟩, ⟨0, 0, 10, 3⟩] ∧
      triangulateEvent [⟨0, 0, 10, 3⟩, ⟨100, 7, 20, 30⟩]
        = triangulateEvent [⟨100, 7, 20, 30⟩, ⟨0, 0, 10, 3⟩] :=
  ⟨List.Perm.swap _ _ _, triangulateEvent_perm_invariant (List.Perm.swap _ _ _)⟩

/-! ### The ill-conditioned fallback (claim C2) and sub-2-observer batches
(claim C7) -/

lemma normalize_unit (v : Point) (hv : 0 < v.x ^ 2 + v.z ^ 2) :
    (normalize v).x ^ 2 + (normalize v).z ^ 2 = 1 := by
  show (v.x / hypot v.x v.z) ^ 2 + (v.z / hypot v.x v.z) ^ 2 = 1
  unfold hypot
  rw [div_pow, div_pow, Real.sq_sqrt hv.le, div_add_div_same, div_self hv.ne']

lemma detA_singleton (r : Ray) (hunit : r.d.x ^ 2 + r.d.z ^ 2 = 1) : detA [r] = 0 := by
  simp only [detA, A00, A01, A10, A11, List.map_cons, List.map_nil, List.sum_cons,
    List.sum_nil, add_zero, m00, m01, m10, m11]
  linear_combination (-1 : ℝ) * hunit

lemma computeLSI_singleton (r : Ray) (hunit : r.d.x ^ 2 + r.d.z ^ 2 = 1) :
    computeLeastSquaresIntersection [r] = r.origin := by
  unfold computeLeastSquaresIntersection
  rw [if_pos (by rw [detA_singleton r hunit]; norm_num)]
  apply Point.ext_xz <;> simp [centroid]

lemma distance_self (p : Point) : distance p p = 0 := by
  simp [distance, hypot]

/-- A single-observation batch is not rejected: the nominal system is
singular, so the estimate degenerates to the observer position with
`errorRadius = 0`. -/
lemma triangulateEvent_singleton (o : Observation)
    (hc : 0 < (o.relX + 0.5 - o.playerX) ^ 2 + (o.relZ + 0.5 - o.playerZ) ^ 2)
    (h0 : 0 < ((corner o 0).x - o.playerX) ^ 2 + ((corner o 0).z - o.playerZ) ^ 2)
    (h1 : 0 < ((corner o 1).x - o.playerX) ^ 2 + ((corner o 1).z - o.playerZ) ^ 2)
    (h2 : 0 < ((corner o 2).x - o.playerX) ^ 2 + ((corner o 2).z - o.playerZ) ^ 2)
    (h3 : 0 < ((corner o 3).x - o.playerX) ^ 2 + ((corner o 3).z - o.playerZ) ^ 2) :
    triangulateEvent [o] = some ⟨o.playerX, o.playerZ, 0⟩ := by
  have hnom : computeNominalIntersection [o] = ⟨o.playerX, o.playerZ⟩ := by
    unfold computeNominalIntersection
    rw [List.map_singleton]
    exact computeLSI_singleton (nominalRay o) (normalize_unit _ hc)
  have hcr : ∀ k : ℕ, 0 < ((corner o k).x - o.playerX) ^ 2 + ((corner o k).z - o.playerZ) ^ 2 →
      computeLeastSquaresIntersection [cornerRay o k] = ⟨o.playerX, o.playerZ⟩ :=
    fun k hk => computeLSI_singleton (cornerRay o k) (normalize_unit _ hk)
  have hext : extremePoints [o]
      = [⟨o.playerX, o.playerZ⟩, ⟨o.playerX, o.playerZ⟩,
         ⟨o.playerX, o.playerZ⟩, ⟨o.playerX, o.playerZ⟩] := by
    unfold extremePoints
    have hlen : (4 : ℕ) ^ ([o] : List Observation).length = 4 := by norm_num
    rw [hlen]
    show [computeLeastSquaresIntersection [cornerRay o (0 % 4)],
          computeLeastSquaresIntersection [cornerRay o (1 % 4)],
          computeLeastSquaresIntersection [cornerRay o (2 % 4)],
          computeLeastSquaresIntersection [cornerRay o (3 % 4)]] = _
    rw [show (0 : ℕ) % 4 = 0 from rfl, show (1 : ℕ) % 4 = 1 from rfl,
      show (2 : ℕ) % 4 = 2 from rfl, show (3 : ℕ) % 4 = 3 from rfl,
      hcr 0 h0, hcr 1 h1, hcr 2 h2, hcr 3 h3]
  have hrad : comprehensiveErrorRadius [o] ⟨o.playerX, o.playerZ⟩ = 0 := by
    unfold comprehensiveErrorRadius
    rw [hext]
    simp [distance_self]
  unfold triangulateEvent
  rw [if_neg (by simp), hnom, hrad]

/-- C2 (amended).  Whenever `|det A| < 10⁻⁸`, the least-squares intersector
falls back to returning the centroid of the ray origins.  The code attaches
no `ILL_CONDITIONED` flag and no infinite `errorRadius`: the result record
has no flag field and `triangulateEvent` computes its `errorRadius` by the
ordinary corner sweep. -/
theorem illConditioned_falls_back_to_centroid (rays : List Ray)
    (h : |detA rays| < 1e-8) :
    computeLeastSquaresIntersection rays = centroid rays := by
  unfold computeLeastSquaresIntersection
  rw [if_pos h]

/-- Witness for C2's amended theorem: two parallel unit rays give `det A = 0`
and the centroid fallback. -/
theorem illConditioned_falls_back_to_centroid_witness :
    |detA [⟨⟨0, 0⟩, ⟨1, 0⟩⟩, ⟨⟨2, 3⟩, ⟨1, 0⟩⟩]| < 1e-8 ∧
      computeLeastSquaresIntersection [⟨⟨0, 0⟩, ⟨1, 0⟩⟩, ⟨⟨2, 3⟩, ⟨1, 0⟩⟩]
        = centroid [⟨⟨0, 0⟩, ⟨1, 0⟩⟩, ⟨⟨2, 3⟩, ⟨1, 0⟩⟩] :=
  ⟨by norm_num [detA, A00, A01, A10, A11, m00, m01, m10, m11],
   illConditioned_falls_back_to_centroid _
     (by norm_num [detA, A00, A01, A10, A11, m00, m01, m10, m11])⟩

/-- C2 counterexample.  On a concrete singular batch (`|det A| < 10⁻⁸` holds)
`triangulateEvent` returns `errorRadius = 0` — a value that is not above
every real bound — and carries no flag, refuting "flagged ILL_CONDITIONED
with errorRadius = +∞". -/
theorem illConditioned_errorRadius_not_infinite :
    |detA (([⟨0, 0, 10, 10⟩] : List Observation).map nominalRay)| < 1e-8 ∧
      triangulateEvent [⟨0, 0, 10, 10⟩] = some ⟨0, 0, 0⟩ ∧
      ¬ ∀ M : ℝ, M ≤ 0 := by
  refine ⟨?_, ?_, fun h => absurd (h 1) (by norm_num)⟩
  · rw [List.map_singleton,
      detA_singleton (nominalRay ⟨0, 0, 10, 10⟩) (normalize_unit _ (by norm_num))]
    norm_num
  · have := triangulateEvent_singleton ⟨0, 0, 10, 10⟩ (by norm_num)
      (by norm_num [corner]) (by norm_num [corner]) (by norm_num [corner])
      (by norm_num [corner])
    simpa using this

/-- C7 (amended).  `triangulateEvent` rejects (returns `null` for) exactly
the empty batch: a batch with a single observation is not rejected. -/
theorem triangulateEvent_none_iff (observations : List Observation) :
    triangulateEvent observations = none ↔ observations = [] := by
  unfold triangulateEvent
  rcases observations with _ | ⟨o, rest⟩ <;> simp

/-- C7 counterexample.  A one-observation batch — fewer than 2 observers — is
not discarded: `triangulateEvent` produces an estimate (the degenerate
centroid fallback at the observer position). -/
theorem triangulateEvent_singleton_not_rejected :
    triangulateEvent [⟨3, 4, 7, 9⟩] = some ⟨3, 4, 0⟩ := by
  have := triangulateEvent_singleton ⟨3, 4, 7, 9⟩ (by norm_num)
    (by norm_num [corner]) (by norm_num [corner]) (by norm_num [corner])
    (by norm_num [corner])
  simpa using this

/-! ### The feasible-region solver, `src/drawing/polygonUtils.ts`
(claims C4, C5, C6, C8) -/

/-- `HalfPlane` from `src/drawing/polygonUtils.ts`: the region
`a·x + b·z ≤ c`. -/
structure HalfPlane where
  a : ℝ
  b : ℝ
  c : ℝ

/-- `signedDistance` from `src/drawing/polygonUtils.ts`. -/
def signedDistance (p : Point) (hp : HalfPlane) : ℝ := hp.a * p.x + hp.b * p.z - hp.c

/-- The denominator `a·Δx + b·Δz` of the crossing parameter in
`clipPolygonAgainstHalfPlane`. -/
def clipDenom (hp : HalfPlane) (curr next : Point) : ℝ :=
  hp.a * (next.x - curr.x) + hp.b * (next.z - curr.z)

/-- The crossing parameter `α = (c - (a·x_curr + b·z_curr)) / denom` of
`clipPolygonAgainstHalfPlane`. -/
def crossingAlpha (hp : HalfPlane) (curr next : Point) : ℝ :=
  (hp.c - (hp.a * curr.x + hp.b * curr.z)) / clipDenom hp curr next

/-- One iteration of the edge loop of `clipPolygonAgainstHalfPlane`:
emit `curr` when it is inside (`signedDistance ≤ 0`), and emit the
interpolated crossing vertex when the edge crosses the boundary, the
denominator is larger than `1e-12` in absolute value, and `0 ≤ α ≤ 1`. -/
def clipEdge (hp : HalfPlane) (curr next : Point) : List Point :=
  (if signedDistance curr hp ≤ 0 then [curr] else []) ++
    (if (signedDistance curr hp ≤ 0) ↔ (signedDistance next hp ≤ 0) then []
     else if 1e-12 < |clipDenom hp curr next| then
       if 0 ≤ crossingAlpha hp curr next ∧ crossingAlpha hp curr next ≤ 1 then
         [⟨curr.x + crossingAlpha hp curr next * (next.x - curr.x),
           curr.z + crossingAlpha hp curr next * (next.z - curr.z)⟩]
       else []
     else [])

/-- `clipPolygonAgainstHalfPlane` from `src/drawing/polygonUtils.ts`: walk
the edges `(polygon[i], polygon[(i+1) % n])` and run the loop body on each;
`polygon.zip (polygon.rotate 1)` is exactly that list of edges. -/
def clipPolygonAgainstHalfPlane (polygon : List Point) (hp : HalfPlane) : List Point :=
  (polygon.zip (polygon.rotate 1)).flatMap fun pr => clipEdge hp pr.1 pr.2

/-- The initial polygon of `intersectHalfPlanes`: the huge counter-clockwise
bounding square `[-1e9, 1e9]²`. -/
def initialBoundingSquare : List Point :=
  [⟨-1e9, -1e9⟩, ⟨1e9, -1e9⟩, ⟨1e9, 1e9⟩, ⟨-1e9, 1e9⟩]

/-- `intersectHalfPlanes` from `src/drawing/polygonUtils.ts`.  The source
breaks out of the loop as soon as the polygon becomes empty; since clipping
an empty polygon yields the empty polygon, folding over the whole list is
extensionally the same. -/
def intersectHalfPlanes (hpList : List HalfPlane) : List Point :=
  hpList.foldl (fun polygon hp => clipPolygonAgainstHalfPlane polygon hp)
    initialBoundingSquare

/-- JavaScript's two-argument arctangent `Math.atan2 y x` (signed zeros
aside, which the reals cannot distinguish). -/
def atan2 (y x : ℝ) : ℝ :=
  if 0 < x then Real.arctan (y / x)
  else if x < 0 then
    if 0 ≤ y then Real.arctan (y / x) + Real.pi else Real.arctan (y / x) - Real.pi
  else
    if 0 < y then Real.pi / 2 else if y < 0 then -(Real.pi / 2) else 0

/-- `thetaMin` of `getWedgeHalfPlanes` (and of `triangulateEvent1`):
`Math.min` over the angles to the four corners
`(relX, relZ), (relX+1, relZ), (relX, relZ+1), (relX+1, relZ+1)`,
taken as iterated binary minima. -/
def wedgeThetaMin (obs : Observation) : ℝ :=
  min (min (min (atan2 (obs.relZ - obs.playerZ) (obs.relX - obs.playerX))
                (atan2 (obs.relZ - obs.playerZ) (obs.relX + 1 - obs.playerX)))
           (atan2 (obs.relZ + 1 - obs.playerZ) (obs.relX - obs.playerX)))
      (atan2 (obs.relZ + 1 - obs.playerZ) (obs.relX + 1 - obs.playerX))

/-- `thetaMax` of `getWedgeHalfPlanes`: `Math.max` over the same four corner
angles. -/
def wedgeThetaMax (obs : Observation) : ℝ :=
  max (max (max (atan2 (obs.relZ - obs.playerZ) (obs.relX - obs.playerX))
                (atan2 (obs.relZ - obs.playerZ) (obs.relX + 1 - obs.playerX)))
           (atan2 (obs.relZ + 1 - obs.playerZ) (obs.relX - obs.playerX)))
      (atan2 (obs.relZ + 1 - obs.playerZ) (obs.relX + 1 - obs.playerX))

/-- `lineFromPoint` inside `getWedgeHalfPlanes`: the line through `P` with
direction angle `θ`, in normal form `(-sin θ)·x + (cos θ)·z = c`. -/
def lineFromPoint (P : Point) (theta : ℝ) : HalfPlane :=
  ⟨-Real.sin theta, Real.cos theta,
   -Real.sin theta * P.x + Real.cos theta * P.z⟩

/-- Negating `(a, b, c)`, as `getWedgeHalfPlanes` does when the test point
is on the wrong side. -/
def flipHalfPlane (hp : HalfPlane) : HalfPlane := ⟨-hp.a, -hp.b, -hp.c⟩

/-- The test point of `getWedgeHalfPlanes`: distance `100000` from the
observer along the mid-angle `(thetaMin + thetaMax) / 2`. -/
def wedgeTestPoint (obs : Observation) : Point :=
  ⟨obs.playerX + 100000 * Real.cos ((wedgeThetaMin obs + wedgeThetaMax obs) / 2),
   obs.playerZ + 100000 * Real.sin ((wedgeThetaMin obs + wedgeThetaMax obs) / 2)⟩

/-- The orientation step of `getWedgeHalfPlanes`: negate `(a, b, c)` when the
test point is strictly on the `> c` side. -/
def orientHalfPlane (obs : Observation) (hp : HalfPlane) : HalfPlane :=
  if 0 < signedDistance (wedgeTestPoint obs) hp then flipHalfPlane hp else hp

/-- `getWedgeHalfPlanes` from `src/drawing/polygonUtils.ts`: the two lines at
the raw `thetaMin` and `thetaMax`, each oriented by testing the point at
distance 100000 along the mid-angle. -/
def getWedgeHalfPlanes (obs : Observation) : List HalfPlane :=
  [orientHalfPlane obs (lineFromPoint ⟨obs.playerX, obs.playerZ⟩ (wedgeThetaMin obs)),
   orientHalfPlane obs (lineFromPoint ⟨obs.playerX, obs.playerZ⟩ (wedgeThetaMax obs))]

/-- `buildErrorRegion` from `src/drawing/polygonUtils.ts`: concatenate every
observation's two wedge half-planes and intersect them all. -/
def buildErrorRegion (observations : List Observation) : List Point :=
  intersectHalfPlanes (observations.flatMap getWedgeHalfPlanes)

/-- C5.  A vertex lying exactly on the clip line, with the following vertex
outside, is emitted twice by `clipPolygonAgainstHalfPlane`: once as the
inside vertex and once as the `α = 0` crossing vertex.  Clipping the initial
bounding square against `x ≤ -10⁹` yields adjacent duplicate vertices. -/
theorem clip_emits_on_line_vertex_twice :
    clipPolygonAgainstHalfPlane initialBoundingSquare ⟨1, 0, -1e9⟩
      = [⟨-1e9, -1e9⟩, ⟨-1e9, -1e9⟩, ⟨-1e9, 1e9⟩, ⟨-1e9, 1e9⟩] := by
  show clipEdge ⟨1, 0, -1e9⟩ ⟨-1e9, -1e9⟩ ⟨1e9, -1e9⟩ ++
      (clipEdge ⟨1, 0, -1e9⟩ ⟨1e9, -1e9⟩ ⟨1e9, 1e9⟩ ++
        (clipEdge ⟨1, 0, -1e9⟩ ⟨1e9, 1e9⟩ ⟨-1e9, 1e9⟩ ++
          (clipEdge ⟨1, 0, -1e9⟩ ⟨-1e9, 1e9⟩ ⟨-1e9, -1e9⟩ ++ []))) = _
  norm_num [clipEdge, signedDistance, crossingAlpha, clipDenom]

lemma arctan_ten_pos : (0 : ℝ) ≤ Real.arctan (1 / 10) := by
  rw [← Real.arctan_zero]
  exact Real.arctan_strictMono.monotone (by norm_num)

lemma atan2_wrap_corner0 :
    atan2 ((-1 : ℝ) - 0) (-10 - 0) = Real.arctan (1 / 10) - Real.pi := by
  unfold atan2
  rw [if_neg (by norm_num), if_pos (by norm_num), if_neg (by norm_num)]
  norm_num

lemma atan2_wrap_corner1 :
    atan2 ((-1 : ℝ) - 0) (-10 + 1 - 0) = Real.arctan (1 / 9) - Real.pi := by
  unfold atan2
  rw [if_neg (by norm_num), if_pos (by norm_num), if_neg (by norm_num)]
  norm_num

lemma atan2_wrap_corner2 : atan2 ((-1 : ℝ) + 1 - 0) (-10 - 0) = Real.pi := by
  unfold atan2
  rw [if_neg (by norm_num), if_pos (by norm_num), if_pos (by norm_num)]
  norm_num [Real.arctan_zero]

lemma atan2_wrap_corner3 : atan2 ((-1 : ℝ) + 1 - 0) (-10 + 1 - 0) = Real.pi := by
  unfold atan2
  rw [if_neg (by norm_num), if_pos (by norm_num), if_pos (by norm_num)]
  norm_num [Real.arctan_zero]

lemma arctan_wrap_AB :
    Real.arctan (1 / 10) - Real.pi ≤ Real.arctan (1 / 9) - Real.pi :=
  sub_le_sub_right (Real.arctan_strictMono.monotone (by norm_num)) _

lemma wedgeThetaMax_wrap : wedgeThetaMax ⟨0, 0, -10, -1⟩ = Real.pi := by
  have hpi := Real.pi_pos
  have h9 := Real.arctan_lt_pi_div_two (1 / 9 : ℝ)
  have hBpi : Real.arctan (1 / 9) - Real.pi ≤ Real.pi := by linarith
  show max (max (max (atan2 ((-1 : ℝ) - 0) (-10 - 0))
        (atan2 ((-1 : ℝ) - 0) (-10 + 1 - 0)))
        (atan2 ((-1 : ℝ) + 1 - 0) (-10 - 0)))
        (atan2 ((-1 : ℝ) + 1 - 0) (-10 + 1 - 0)) = _
  rw [atan2_wrap_corner0, atan2_wrap_corner1, atan2_wrap_corner2, atan2_wrap_corner3,
    max_eq_right arctan_wrap_AB, max_eq_right hBpi, max_self]

lemma wedgeThetaMin_wrap :
    wedgeThetaMin ⟨0, 0, -10, -1⟩ = Real.arctan (1 / 10) - Real.pi := by
  have hpi := Real.pi_pos
  have h10 := Real.arctan_lt_pi_div_two (1 / 10 : ℝ)
  have hApi : Real.arctan (1 / 10) - Real.pi ≤ Real.pi := by linarith
  show min (min (min (atan2 ((-1 : ℝ) - 0) (-10 - 0))
        (atan2 ((-1 : ℝ) - 0) (-10 + 1 - 0)))
        (atan2 ((-1 : ℝ) + 1 - 0) (-10 - 0)))
        (atan2 ((-1 : ℝ) + 1 - 0) (-10 + 1 - 0)) = _
  rw [atan2_wrap_corner0, atan2_wrap_corner1, atan2_wrap_corner2, atan2_wrap_corner3,
    min_eq_left arctan_wrap_AB, min_eq_left hApi, min_eq_left hApi]

/-- C6.  With the observation at `(0, 0)` reporting the hint `(-10, -1)`
the four corner bearings straddle `±π`: the raw `Math.min`/`Math.max` of the
arctangents give `thetaMax = π` and an interval wider than `π`, i.e. the
wedge construction does not unwrap the straddling interval into a contiguous
one. -/
theorem wedge_angle_wrap_not_unwrapped :
    wedgeThetaMax ⟨0, 0, -10, -1⟩ = Real.pi ∧
      Real.pi < wedgeThetaMax ⟨0, 0, -10, -1⟩ - wedgeThetaMin ⟨0, 0, -10, -1⟩ := by
  have hpi := Real.pi_pos
  have h10 := Real.arctan_lt_pi_div_two (1 / 10 : ℝ)
  refine ⟨wedgeThetaMax_wrap, ?_⟩
  rw [wedgeThetaMax_wrap, wedgeThetaMin_wrap]
  linarith

/-- C8.  An observer sitting at the centre of its own hint square — the
degenerate case the claim says is rejected — is not rejected:
`getWedgeHalfPlanes` still produces its two half-planes, and the wedge's
angular span is `3π/2`, violating `thetaMax - thetaMin < π`. -/
theorem observer_inside_square_not_rejected :
    (getWedgeHalfPlanes ⟨-9.5, -0.5, -10, -1⟩).length = 2 ∧
      ¬ (wedgeThetaMax ⟨-9.5, -0.5, -10, -1⟩ - wedgeThetaMin ⟨-9.5, -0.5, -10, -1⟩
          < Real.pi) := by
  have hpi := Real.pi_pos
  have e1 : atan2 ((-1 : ℝ) - -0.5) (-10 - -9.5) = Real.pi / 4 - Real.pi := by
    unfold atan2
    rw [if_neg (by norm_num), if_pos (by norm_num), if_neg (by norm_num)]
    rw [show ((-1 : ℝ) - -0.5) / (-10 - -9.5) = 1 by norm_num, Real.arctan_one]
  have e2 : atan2 ((-1 : ℝ) - -0.5) (-10 + 1 - -9.5) = -(Real.pi / 4) := by
    unfold atan2
    rw [if_pos (by norm_num),
      show ((-1 : ℝ) - -0.5) / (-10 + 1 - -9.5) = -1 by norm_num,
      Real.arctan_neg, Real.arctan_one]
  have e3 : atan2 ((-1 : ℝ) + 1 - -0.5) (-10 - -9.5) = -(Real.pi / 4) + Real.pi := by
    unfold atan2
    rw [if_neg (by norm_num), if_pos (by norm_num), if_pos (by norm_num),
      show ((-1 : ℝ) + 1 - -0.5) / (-10 - -9.5) = -1 by norm_num,
      Real.arctan_neg, Real.arctan_one]
  have e4 : atan2 ((-1 : ℝ) + 1 - -0.5) (-10 + 1 - -9.5) = Real.pi / 4 := by
    unfold atan2
    rw [if_pos (by norm_num),
      show ((-1 : ℝ) + 1 - -0.5) / (-10 + 1 - -9.5) = 1 by norm_num, Real.arctan_one]
  have hAB : Real.pi / 4 - Real.pi ≤ -(Real.pi / 4) := by linarith
  have hAC : Real.pi / 4 - Real.pi ≤ -(Real.pi / 4) + Real.pi := by linarith
  have hAD : Real.pi / 4 - Real.pi ≤ Real.pi / 4 := by linarith
  have hBC : -(Real.pi / 4) ≤ -(Real.pi / 4) + Real.pi := by linarith
  have hDC : Real.pi / 4 ≤ -(Real.pi / 4) + Real.pi := by linarith
  have hmin : wedgeThetaMin ⟨-9.5, -0.5, -10, -1⟩ = Real.pi / 4 - Real.pi := by
    show min (min (min (atan2 ((-1 : ℝ) - -0.5) (-10 - -9.5))
          (atan2 ((-1 : ℝ) - -0.5) (-10 + 1 - -9.5)))
          (atan2 ((-1 : ℝ) + 1 - -0.5) (-10 - -9.5)))
          (atan2 ((-1 : ℝ) + 1 - -0.5) (-10 + 1 - -9.5)) = _
    rw [e1, e2, e3, e4, min_eq_left hAB, min_eq_left hAC, min_eq_left hAD]
  have hmax : wedgeThetaMax ⟨-9.5, -0.5, -10, -1⟩ = -(Real.pi / 4) + Real.pi := by
    show max (max (max (atan2 ((-1 : ℝ) - -0.5) (-10 - -9.5))
          (atan2 ((-1 : ℝ) - -0.5) (-10 + 1 - -9.5)))
          (atan2 ((-1 : ℝ) + 1 - -0.5) (-10 - -9.5)))
          (atan2 ((-1 : ℝ) + 1 - -0.5) (-10 + 1 - -9.5)) = _
    rw [e1, e2, e3, e4, max_eq_right hAB, max_eq_right hBC, max_eq_left hDC]
  refine ⟨rfl, ?_⟩
  rw [hmax, hmin]
  intro hcontra
  linarith

/-! ### Soundness of the clipper output (claim C4) -/

/-- Convex interpolation `u + α (w - u)`: the form of every crossing vertex
the clipper emits. -/
def interpPoint (u : Point) (alpha : ℝ) (w : Point) : Point :=
  ⟨u.x + alpha * (w.x - u.x), u.z + alpha * (w.z - u.z)⟩

/-- Predicates on points preserved by convex interpolation with `α ∈ [0,1]`. -/
def InterpClosed (Q : Point → Prop) : Prop :=
  ∀ (u w : Point) (alpha : ℝ), 0 ≤ alpha → alpha ≤ 1 → Q u → Q w →
    Q (interpPoint u alpha w)

lemma interpClosed_halfPlane (hp : HalfPlane) :
    InterpClosed fun p => signedDistance p hp ≤ 0 := by
  intro u w alpha h0 h1 hu hw
  unfold signedDistance interpPoint at *
  simp only at *
  nlinarith [mul_nonneg h0 (neg_nonneg.mpr hw),
    mul_nonneg (by linarith : (0 : ℝ) ≤ 1 - alpha) (neg_nonneg.mpr hu)]

lemma interpClosed_and {Q R : Point → Prop} (hQ : InterpClosed Q)
    (hR : InterpClosed R) : InterpClosed fun p => Q p ∧ R p :=
  fun u w alpha h0 h1 hu hw =>
    ⟨hQ u w alpha h0 h1 hu.1 hw.1, hR u w alpha h0 h1 hu.2 hw.2⟩

/-- Membership in the initial bounding square `[-1e9, 1e9]²`. -/
def InBox (p : Point) : Prop :=
  -1e9 ≤ p.x ∧ p.x ≤ 1e9 ∧ -1e9 ≤ p.z ∧ p.z ≤ 1e9

lemma interpClosed_inBox : InterpClosed InBox := by
  intro u w alpha h0 h1 hu hw
  obtain ⟨hu1, hu2, hu3, hu4⟩ := hu
  obtain ⟨hw1, hw2, hw3, hw4⟩ := hw
  have ha' : (0 : ℝ) ≤ 1 - alpha := by linarith
  unfold InBox interpPoint
  simp only
  refine ⟨?_, ?_, ?_, ?_⟩
  · nlinarith [mul_nonneg ha' (by linarith : (0 : ℝ) ≤ u.x + 1e9),
      mul_nonneg h0 (by linarith : (0 : ℝ) ≤ w.x + 1e9)]
  · nlinarith [mul_nonneg ha' (by linarith : (0 : ℝ) ≤ 1e9 - u.x),
      mul_nonneg h0 (by linarith : (0 : ℝ) ≤ 1e9 - w.x)]
  · nlinarith [mul_nonneg ha' (by linarith : (0 : ℝ) ≤ u.z + 1e9),
      mul_nonneg h0 (by linarith : (0 : ℝ) ≤ w.z + 1e9)]
  · nlinarith [mul_nonneg ha' (by linarith : (0 : ℝ) ≤ 1e9 - u.z),
      mul_nonneg h0 (by linarith : (0 : ℝ) ≤ 1e9 - w.z)]

lemma clipEdge_cases {hp : HalfPlane} {curr next v : Point}
    (h : v ∈ clipEdge hp curr next) :
    signedDistance v hp ≤ 0 ∧
      (v = curr ∨ ∃ alpha : ℝ, 0 ≤ alpha ∧ alpha ≤ 1 ∧
        v = interpPoint curr alpha next) := by
  unfold clipEdge at h
  rw [List.mem_append] at h
  rcases h with h | h
  · by_cases hin : signedDistance curr hp ≤ 0
    · rw [if_pos hin, List.mem_singleton] at h
      subst h
      exact ⟨hin, Or.inl rfl⟩
    · rw [if_neg hin] at h
      exact absurd h (List.not_mem_nil v)
  · by_cases hiff : (signedDistance curr hp ≤ 0) ↔ (signedDistance next hp ≤ 0)
    · rw [if_pos hiff] at h
      exact absurd h (List.not_mem_nil v)
    · rw [if_neg hiff] at h
      by_cases hden : 1e-12 < |clipDenom hp curr next|
      · rw [if_pos hden] at h
        by_cases halpha : 0 ≤ crossingAlpha hp curr next ∧ crossingAlpha hp curr next ≤ 1
        · rw [if_pos halpha, List.mem_singleton] at h
          subst h
          have hdenne : clipDenom hp curr next ≠ 0 := by
            intro h0
            rw [h0, abs_zero] at hden
            norm_num at hden
          have hval : hp.a * (curr.x + crossingAlpha hp curr next * (next.x - curr.x)) +
              hp.b * (curr.z + crossingAlpha hp curr next * (next.z - curr.z)) - hp.c
                = 0 := by
            have hmul := div_mul_cancel₀
              (hp.c - (hp.a * curr.x + hp.b * curr.z)) hdenne
            unfold crossingAlpha
            unfold clipDenom at hmul ⊢
            linear_combination hmul
          exact ⟨le_of_eq hval, Or.inr ⟨_, halpha.1, halpha.2, rfl⟩⟩
        · rw [if_neg halpha] at h
          exact absurd h (List.not_mem_nil v)
      · rw [if_neg hden] at h
        exact absurd h (List.not_mem_nil v)

lemma clipPolygon_cases {polygon : List Point} {hp : HalfPlane} {v : Point}
    (h : v ∈ clipPolygonAgainstHalfPlane polygon hp) :
    signedDistance v hp ≤ 0 ∧
      (v ∈ polygon ∨ ∃ u ∈ polygon, ∃ w ∈ polygon, ∃ alpha : ℝ,
        0 ≤ alpha ∧ alpha ≤ 1 ∧ v = interpPoint u alpha w) := by
  unfold clipPolygonAgainstHalfPlane at h
  rw [List.mem_flatMap] at h
  obtain ⟨pr, hpr, hv⟩ := h
  obtain ⟨h1, h2⟩ := List.of_mem_zip (a := pr.1) (b := pr.2) (by simpa using hpr)
  rw [List.mem_rotate] at h2
  obtain ⟨hsd, hcase⟩ := clipEdge_cases hv
  refine ⟨hsd, ?_⟩
  rcases hcase with rfl | ⟨alpha, ha0, ha1, rfl⟩
  · exact Or.inl h1
  · exact Or.inr ⟨pr.1, h1, pr.2, h2, alpha, ha0, ha1, rfl⟩

lemma clip_preserves {Q : Point → Prop} (hQ : InterpClosed Q) {polygon : List Point}
    {hp : HalfPlane} (hpoly : ∀ v ∈ polygon, Q v) :
    ∀ v ∈ clipPolygonAgainstHalfPlane polygon hp, Q v ∧ signedDistance v hp ≤ 0 := by
  intro v hv
  obtain ⟨hsd, hcase⟩ := clipPolygon_cases hv
  refine ⟨?_, hsd⟩
  rcases hcase with hmem | ⟨u, hu, w, hw, alpha, h0, h1, rfl⟩
  · exact hpoly v hmem
  · exact hQ u w alpha h0 h1 (hpoly u hu) (hpoly w hw)

lemma foldl_clip_sound :
    ∀ (hpList : List HalfPlane) (Q : Point → Prop), InterpClosed Q →
      ∀ polygon : List Point, (∀ v ∈ polygon, Q v) →
        ∀ v ∈ hpList.foldl (fun pg hp => clipPolygonAgainstHalfPlane pg hp) polygon,
          Q v ∧ ∀ hp ∈ hpList, signedDistance v hp ≤ 0 := by
  intro hpList
  induction hpList with
  | nil =>
      intro Q hQ polygon hpoly v hv
      simp only [List.foldl_nil] at hv
      exact ⟨hpoly v hv, by simp⟩
  | cons hp rest ih =>
      intro Q hQ polygon hpoly v hv
      simp only [List.foldl_cons] at hv
      have hQ' : InterpClosed fun p => Q p ∧ signedDistance p hp ≤ 0 :=
        interpClosed_and hQ (interpClosed_halfPlane hp)
      have h := ih (fun p => Q p ∧ signedDistance p hp ≤ 0) hQ'
        (clipPolygonAgainstHalfPlane polygon hp) (clip_preserves hQ hpoly) v hv
      refine ⟨h.1.1, fun hp' hmem => ?_⟩
      rcases List.mem_cons.mp hmem with rfl | hmem'
      · exact h.1.2
      · exact h.2 hp' hmem'

/-- Every vertex the feasible-region solver returns satisfies every supplied
half-plane constraint and lies inside the initial bounding square. -/
lemma intersectHalfPlanes_sound (hpList : List HalfPlane) :
    ∀ v ∈ intersectHalfPlanes hpList,
      InBox v ∧ ∀ hp ∈ hpList, signedDistance v hp ≤ 0 := by
  intro v hv
  refine foldl_clip_sound hpList InBox interpClosed_inBox initialBoundingSquare
    ?_ v hv
  intro w hw
  simp only [initialBoundingSquare, List.mem_cons, List.not_mem_nil, or_false] at hw
  rcases hw with rfl | rfl | rfl | rfl <;> exact ⟨by norm_num, by norm_num, by norm_num, by norm_num⟩

/-- The coordinates of a vertex, as a pair of reals (for convex-hull
statements over `ℝ × ℝ`). -/
def toPair (p : Point) : ℝ × ℝ := (p.x, p.z)

/-- Every point of the convex hull of the solver's output satisfies every
supplied half-plane and the bounding-square bounds. -/
lemma hull_clip_sound (hpList : List HalfPlane) (q : ℝ × ℝ)
    (hq : q ∈ convexHull ℝ
      {y : ℝ × ℝ | ∃ v ∈ intersectHalfPlanes hpList, toPair v = y}) :
    (∀ hp ∈ hpList, hp.a * q.1 + hp.b * q.2 - hp.c ≤ 0) ∧
      -1e9 ≤ q.1 ∧ q.1 ≤ 1e9 ∧ -1e9 ≤ q.2 ∧ q.2 ≤ 1e9 := by
  have hsub : {y : ℝ × ℝ | ∃ v ∈ intersectHalfPlanes hpList, toPair v = y} ⊆
      {y : ℝ × ℝ | (∀ hp ∈ hpList, hp.a * y.1 + hp.b * y.2 - hp.c ≤ 0) ∧
        -1e9 ≤ y.1 ∧ y.1 ≤ 1e9 ∧ -1e9 ≤ y.2 ∧ y.2 ≤ 1e9} := by
    rintro y ⟨v, hv, rfl⟩
    obtain ⟨hbox, hsd⟩ := intersectHalfPlanes_sound hpList v hv
    exact ⟨fun hp hmem => hsd hp hmem, hbox.1, hbox.2.1, hbox.2.2.1, hbox.2.2.2⟩
  have hconv : Convex ℝ
      {y : ℝ × ℝ | (∀ hp ∈ hpList, hp.a * y.1 + hp.b * y.2 - hp.c ≤ 0) ∧
        -1e9 ≤ y.1 ∧ y.1 ≤ 1e9 ∧ -1e9 ≤ y.2 ∧ y.2 ≤ 1e9} := by
    intro y hy z hz a b ha hb hab
    obtain ⟨hy1, hy2, hy3, hy4, hy5⟩ := hy
    obtain ⟨hz1, hz2, hz3, hz4, hz5⟩ := hz
    simp only [Set.mem_setOf_eq, Prod.fst_add, Prod.snd_add, Prod.smul_fst,
      Prod.smul_snd, smul_eq_mul]
    refine ⟨?_, ?_, ?_, ?_, ?_⟩
    · intro hp hmem
      have h1 := hy1 hp hmem
      have h2 := hz1 hp hmem
      have habc : (a + b) * hp.c = 1 * hp.c := by rw [hab]
      nlinarith [mul_le_mul_of_nonneg_left h1 ha, mul_le_mul_of_nonneg_left h2 hb,
        habc]
    · nlinarith [mul_le_mul_of_nonneg_left hy2 ha, mul_le_mul_of_nonneg_left hz2 hb]
    · nlinarith [mul_le_mul_of_nonneg_left hy3 ha, mul_le_mul_of_nonneg_left hz3 hb]
    · nlinarith [mul_le_mul_of_nonneg_left hy4 ha, mul_le_mul_of_nonneg_left hz4 hb]
    · nlinarith [mul_le_mul_of_nonneg_left hy5 ha, mul_le_mul_of_nonneg_left hz5 hb]
  exact convexHull_min hsub hconv hq

/-- C4 (amended).  Soundness direction of the feasible-region solver: every
point of (the convex hull of) the polygon returned by `intersectHalfPlanes`
satisfies every supplied half-plane constraint and lies within the initial
bounding square `[-10⁹, 10⁹]²`.  (The converse inclusion is refuted by the
`±π`-straddling wedge counterexample.) -/
theorem polygon_points_satisfy_halfplanes (hpList : List HalfPlane) (q : ℝ × ℝ)
    (hq : q ∈ convexHull ℝ
      {y : ℝ × ℝ | ∃ v ∈ intersectHalfPlanes hpList, toPair v = y}) :
    (∀ hp ∈ hpList, hp.a * q.1 + hp.b * q.2 - hp.c ≤ 0) ∧
      -1e9 ≤ q.1 ∧ q.1 ≤ 1e9 ∧ -1e9 ≤ q.2 ∧ q.2 ≤ 1e9 :=
  hull_clip_sound hpList q hq

/-- Witness for C4's amended theorem: with no half-planes the polygon is the
initial bounding square, whose corner `(-10⁹, -10⁹)` is in the hull and meets
the (vacuous) constraints and the box bounds. -/
theorem polygon_points_satisfy_halfplanes_witness :
    ((-1e9, -1e9) : ℝ × ℝ) ∈ convexHull ℝ
        {y : ℝ × ℝ | ∃ v ∈ intersectHalfPlanes [], toPair v = y} ∧
      ((∀ hp ∈ ([] : List HalfPlane),
          hp.a * (-1e9 : ℝ) + hp.b * (-1e9 : ℝ) - hp.c ≤ 0) ∧
        -1e9 ≤ (-1e9 : ℝ) ∧ (-1e9 : ℝ) ≤ 1e9 ∧
          -1e9 ≤ (-1e9 : ℝ) ∧ (-1e9 : ℝ) ≤ 1e9) := by
  have hmem : ((-1e9, -1e9) : ℝ × ℝ) ∈ convexHull ℝ
      {y : ℝ × ℝ | ∃ v ∈ intersectHalfPlanes [], toPair v = y} := by
    apply subset_convexHull
    exact ⟨⟨-1e9, -1e9⟩, by simp [intersectHalfPlanes, initialBoundingSquare], rfl⟩
  exact ⟨hmem, polygon_points_satisfy_halfplanes [] _ hmem⟩

/-- Modelled from the spec (§3 "Wedge" and the Glossary): the wedge of an
observation is the set of points on rays emanating from the observer through
any point of the hint's half-open unit square
`[relX, relX+1) × [relZ, relZ+1)`. -/
def specWedge (obs : Observation) (p : Point) : Prop :=
  ∃ q : Point, obs.relX ≤ q.x ∧ q.x < obs.relX + 1 ∧
    obs.relZ ≤ q.z ∧ q.z < obs.relZ + 1 ∧
    ∃ t : ℝ, 0 ≤ t ∧ p.x = obs.playerX + t * (q.x - obs.playerX) ∧
      p.z = obs.playerZ + t * (q.z - obs.playerZ)

lemma signedDistance_test_line (P : Point) (theta mid : ℝ) :
    signedDistance ⟨P.x + 100000 * Real.cos mid, P.z + 100000 * Real.sin mid⟩
        (lineFromPoint P theta) = 100000 * Real.sin (mid - theta) := by
  unfold signedDistance lineFromPoint
  simp only
  rw [Real.sin_sub]
  ring

lemma wrap_flip_condition :
    0 < signedDistance (wedgeTestPoint ⟨0, 0, -10, -1⟩)
      (lineFromPoint ⟨(0 : ℝ), 0⟩ (wedgeThetaMin ⟨0, 0, -10, -1⟩)) := by
  have h : signedDistance (wedgeTestPoint ⟨0, 0, -10, -1⟩)
      (lineFromPoint ⟨(0 : ℝ), 0⟩ (wedgeThetaMin ⟨0, 0, -10, -1⟩))
        = 100000 * Real.sin ((wedgeThetaMin ⟨0, 0, -10, -1⟩ +
            wedgeThetaMax ⟨0, 0, -10, -1⟩) / 2 - wedgeThetaMin ⟨0, 0, -10, -1⟩) :=
    signedDistance_test_line ⟨0, 0⟩ _ _
  rw [h, wedgeThetaMin_wrap, wedgeThetaMax_wrap]
  have harg : (Real.arctan (1 / 10) - Real.pi + Real.pi) / 2 -
      (Real.arctan (1 / 10) - Real.pi) = Real.pi - Real.arctan (1 / 10) / 2 := by
    ring
  rw [harg, Real.sin_pi_sub]
  have h1 : 0 < Real.arctan (1 / 10) := by
    rw [← Real.arctan_zero]
    exact Real.arctan_strictMono (by norm_num)
  have h2 := Real.arctan_lt_pi_div_two (1 / 10 : ℝ)
  have hpi := Real.pi_pos
  have hs : 0 < Real.sin (Real.arctan (1 / 10) / 2) :=
    Real.sin_pos_of_pos_of_lt_pi (by linarith) (by linarith)
  linarith

/-- C4 counterexample.  For the `±π`-straddling observation at the origin
with hint `(-10, -1)`, the centre `(-9.5, -0.5)` of the hint's unit square
lies in the observation's wedge (as the spec defines it) and inside the
bounding square, yet it is not in the convex hull of the polygon
`buildErrorRegion` returns — the mis-oriented wrap half-plane excludes it.
So a point can lie in every observation's wedge without lying in the
returned polygon. -/
theorem wedge_point_outside_polygon :
    specWedge ⟨0, 0, -10, -1⟩ ⟨-9.5, -0.5⟩ ∧
      InBox ⟨-9.5, -0.5⟩ ∧
      ((-9.5, -0.5) : ℝ × ℝ) ∉ convexHull ℝ
        {y : ℝ × ℝ | ∃ v ∈ buildErrorRegion [⟨0, 0, -10, -1⟩], toPair v = y} := by
  refine ⟨⟨⟨-9.5, -0.5⟩, by norm_num, by norm_num, by norm_num, by norm_num,
      1, by norm_num, by norm_num, by norm_num⟩,
    ⟨by norm_num, by norm_num, by norm_num, by norm_num⟩, ?_⟩
  intro hmem
  have horient : orientHalfPlane ⟨0, 0, -10, -1⟩
      (lineFromPoint ⟨(0 : ℝ), 0⟩ (wedgeThetaMin ⟨0, 0, -10, -1⟩))
        = flipHalfPlane (lineFromPoint ⟨(0 : ℝ), 0⟩ (wedgeThetaMin ⟨0, 0, -10, -1⟩)) := by
    unfold orientHalfPlane
    rw [if_pos wrap_flip_condition]
  have hmem1 : orientHalfPlane ⟨0, 0, -10, -1⟩
      (lineFromPoint ⟨(0 : ℝ), 0⟩ (wedgeThetaMin ⟨0, 0, -10, -1⟩))
        ∈ ([(⟨0, 0, -10, -1⟩ : Observation)].flatMap getWedgeHalfPlanes) :=
    List.mem_cons_self _ _
  have hsound := hull_clip_sound
    (([(⟨0, 0, -10, -1⟩ : Observation)]).flatMap getWedgeHalfPlanes)
    (-9.5, -0.5) hmem
  have hhp := hsound.1 _ hmem1
  rw [horient, wedgeThetaMin_wrap] at hhp
  unfold flipHalfPlane lineFromPoint at hhp
  simp only at hhp
  rw [Real.sin_sub_pi, Real.cos_sub_pi, Real.sin_arctan, Real.cos_arctan] at hhp
  have hB : (0 : ℝ) < (Real.sqrt (101 / 100))⁻¹ := by positivity
  ring_nf at hhp
  linarith [hhp, hB]

/-! ### Hint reconstruction, `src/cracking/build_test_utils.ts` (claim C3) -/

/-- `javaInt` from `src/cracking/build_test_utils.ts`: for `x ≥ 0` it takes
`Math.floor (x - 1e-9)`, otherwise `Math.ceil (x + 1e-9)`.  (Its own doc
comment says it mimics Java's `(int)` cast, i.e. truncation toward zero.) -/
def javaInt (x : ℝ) : ℤ :=
  if x ≥ 0 then ⌊x - 1e-9⌋ else ⌈x + 1e-9⌉

/-- Modelled from the spec (§4.A): the server's integer cast, genuine
truncation toward zero (`-3.7 → -3`, `+3.7 → +3`, and `n → n` on exact
integers). -/
def truncTowardZero (x : ℝ) : ℤ :=
  if 0 ≤ x then ⌊x⌋ else ⌈x⌉

/-- `computeRelativeCoords` from `src/cracking/build_test_utils.ts`: floor
the event position when it is within view distance, otherwise project onto
the view-distance circle and apply `javaInt` to each coordinate. -/
def computeRelativeCoords (explosionX explosionZ playerX playerZ viewDistance : ℝ) :
    ℤ × ℤ :=
  if (explosionX - playerX) * (explosionX - playerX) +
      (explosionZ - playerZ) * (explosionZ - playerZ) >
        viewDistance * viewDistance then
    (javaInt (playerX + (explosionX - playerX) /
        Real.sqrt ((explosionX - playerX) * (explosionX - playerX) +
          (explosionZ - playerZ) * (explosionZ - playerZ)) * viewDistance),
     javaInt (playerZ + (explosionZ - playerZ) /
        Real.sqrt ((explosionX - playerX) * (explosionX - playerX) +
          (explosionZ - playerZ) * (explosionZ - playerZ)) * viewDistance))
  else (⌊explosionX⌋, ⌊explosionZ⌋)

/-- C3 (divergence witness).  For the event at `(10, 0)` seen from `(0, 0)`
with view distance `3`, the projected point is exactly `(3, 0)`; the server's
integer cast gives `(3, 0)`, but `javaInt`'s `±1e-9` nudge makes
`computeRelativeCoords` return `(2, -1)` — so the code does not bit-match the
truncate-toward-zero cast on exact-integer inputs. -/
theorem computeRelativeCoords_not_server_cast :
    computeRelativeCoords 10 0 0 0 3 = (2, -1) ∧
      truncTowardZero 3 = 3 ∧ truncTowardZero 0 = 0 := by
  refine ⟨?_, ?_, ?_⟩
  · unfold computeRelativeCoords
    rw [if_pos (by norm_num)]
    have hsqrt : Real.sqrt (((10 : ℝ) - 0) * (10 - 0) + (0 - 0) * (0 - 0)) = 10 := by
      rw [show (((10 : ℝ) - 0) * (10 - 0) + (0 - 0) * (0 - 0)) = 10 ^ 2 by norm_num,
        Real.sqrt_sq (by norm_num)]
    rw [hsqrt]
    norm_num [javaInt]
  · unfold truncTowardZero
    rw [if_pos (by norm_num)]
    norm_num
  · unfold truncTowardZero
    rw [if_pos (by norm_num)]
    norm_num

/-! ### `src/theForge.ts`: 3-D line intersection and clamping (claim C10) -/

/-- A 3-D vector/position (`Position` and `Vec3` of `src/theForge.ts`). -/
structure P3 where
  x : ℝ
  y : ℝ
  z : ℝ

@[ext]
lemma P3.ext_xyz {p q : P3} (hx : p.x = q.x) (hy : p.y = q.y) (hz : p.z = q.z) :
    p = q := by
  cases p; cases q; simp_all

/-- Componentwise subtraction (`Vec3.subtract`). -/
def P3.sub (v w : P3) : P3 := ⟨v.x - w.x, v.y - w.y, v.z - w.z⟩

/-- Componentwise addition (`Vec3.plus`). -/
def P3.add (v w : P3) : P3 := ⟨v.x + w.x, v.y + w.y, v.z + w.z⟩

/-- Scaling (`Vec3.scaled`). -/
def P3.scaled (v : P3) (k : ℝ) : P3 := ⟨v.x * k, v.y * k, v.z * k⟩

/-- Euclidean norm of a 3-D vector. -/
def P3.norm (v : P3) : ℝ := Real.sqrt (v.x ^ 2 + v.y ^ 2 + v.z ^ 2)

/-- `Vec3.distanceTo`. -/
def P3.distanceTo (v w : P3) : ℝ := P3.norm (P3.sub w v)

/-- `Vec3.normalize`: scale by the reciprocal norm (the zero-vector case
never arises where the code uses it, under a strictly positive distance
guard). -/
def P3.normalize (v : P3) : P3 := v.scaled (1 / P3.norm v)

/-- `Line3D` from `src/theForge.ts`. -/
structure Line3D where
  origin : P3
  direction : P3

/-- `ForgeConfig` from `src/theForge.ts`. -/
structure ForgeConfig where
  clampDistance : ℝ
  minY : ℝ
  viewDistance : ℝ

/-- `calculateLine`: origin plus direction = sound position minus bot
position. -/
def calculateLine (bPosition wPosition : P3) : Line3D :=
  ⟨bPosition, P3.sub wPosition bPosition⟩

/-- `clampIntersection` from `src/theForge.ts`: if the intersection is more
than `maxDist` from the bot, move it onto the sphere of radius `maxDist`
around the bot (in full 3-D). -/
def clampIntersection (botPos intersect : P3) (maxDist : ℝ) : P3 :=
  if P3.distanceTo botPos intersect > maxDist then
    P3.add botPos ((P3.normalize (P3.sub intersect botPos)).scaled maxDist)
  else intersect

/-- The 2-D cross-product denominator of `findIntersection`. -/
def forgeDenom (line1 line2 : Line3D) : ℝ :=
  line1.direction.x * line2.direction.z - line1.direction.z * line2.direction.x

/-- The ray parameter `t` of `findIntersection`. -/
def forgeT (line1 line2 : Line3D) : ℝ :=
  ((line2.origin.x - line1.origin.x) * line2.direction.z -
    (line2.origin.z - line1.origin.z) * line2.direction.x) / forgeDenom line1 line2

/-- The raw x-z intersection of `findIntersection`, with `y` hard-coded
to 64. -/
def rawIntersection (line1 line2 : Line3D) : P3 :=
  ⟨line1.origin.x + line1.direction.x * forgeT line1 line2, 64,
   line1.origin.z + line1.direction.z * forgeT line1 line2⟩

/-- A line's origin flattened to `y = 0`, as `findIntersection` builds
`bot1Pos` and `bot2Pos`. -/
def flatOrigin (line : Line3D) : P3 := ⟨line.origin.x, 0, line.origin.z⟩

/-- `findIntersection` from `src/theForge.ts`: `null` when the directions
are near-parallel; otherwise the raw intersection clamped to 5000 blocks of
each bot (hard-coded), with `y = max 60 ...` on return. -/
def findIntersection (line1 line2 : Line3D) : Option P3 :=
  if |forgeDenom line1 line2| < 1e-9 then none
  else
    some ⟨(clampIntersection (flatOrigin line2)
            (clampIntersection (flatOrigin line1) (rawIntersection line1 line2) 5000)
            5000).x,
          max 60 (clampIntersection (flatOrigin line2)
            (clampIntersection (flatOrigin line1) (rawIntersection line1 line2) 5000)
            5000).y,
          (clampIntersection (flatOrigin line2)
            (clampIntersection (flatOrigin line1) (rawIntersection line1 line2) 5000)
            5000).z⟩

/-- Dot product of 3-D vectors. -/
def dot3 (v w : P3) : ℝ := v.x * w.x + v.y * w.y + v.z * w.z

/-- A direction flattened to the x-z plane, as `getAngleBetweenLines` does. -/
def flatDir (d : P3) : P3 := ⟨d.x, 0, d.z⟩

/-- `getAngleBetweenLines` from `src/theForge.ts`. -/
def getAngleBetweenLines (d1 d2 : P3) : ℝ :=
  if P3.norm (flatDir d1) = 0 ∨ P3.norm (flatDir d2) = 0 then 0
  else Real.arccos (dot3 (flatDir d1) (flatDir d2) /
    (P3.norm (flatDir d1) * P3.norm (flatDir d2)))

/-- The result record of `calculateAccurateWitherSpawn`.  JavaScript's
`Infinity` in the `error` field is modelled by `⊤ : EReal`. -/
structure SpawnResult where
  x : ℝ
  y : ℝ
  z : ℝ
  error : EReal

/-- `calculateAccurateWitherSpawn` from `src/theForge.ts`: intersect the two
lines, then clamp the result once more with the configured `clampDistance`
from `bot1Pos` (flattened to `y = 0`), attaching `error = 1 / sin angle`
(`Infinity` below the `0.0001` angle threshold). -/
def calculateAccurateWitherSpawn (bot1Pos bot1SoundPos bot2Pos bot2SoundPos : P3)
    (forgeConfig : ForgeConfig) : Option SpawnResult :=
  match findIntersection (calculateLine bot1Pos bot1SoundPos)
      (calculateLine bot2Pos bot2SoundPos) with
  | none => none
  | some intersection =>
      some ⟨(clampIntersection ⟨bot1Pos.x, 0, bot1Pos.z⟩ intersection
              forgeConfig.clampDistance).x,
            (clampIntersection ⟨bot1Pos.x, 0, bot1Pos.z⟩ intersection
              forgeConfig.clampDistance).y,
            (clampIntersection ⟨bot1Pos.x, 0, bot1Pos.z⟩ intersection
              forgeConfig.clampDistance).z,
            if getAngleBetweenLines (calculateLine bot1Pos bot1SoundPos).direction
                (calculateLine bot2Pos bot2SoundPos).direction < 0.0001
            then (⊤ : EReal)
            else ((1 / Real.sin (getAngleBetweenLines
                (calculateLine bot1Pos bot1SoundPos).direction
                (calculateLine bot2Pos bot2SoundPos).direction) : ℝ) : EReal)⟩

/-- `calculateFinalIntersection` from `src/theForge.ts`: like
`calculateAccurateWitherSpawn` but without the `error` field. -/
def calculateFinalIntersection (botPosA i12 botPosB i34 : P3)
    (forgeConfig : ForgeConfig) : Option P3 :=
  match findIntersection (calculateLine botPosA i12) (calculateLine botPosB i34) with
  | none => none
  | some intersection =>
      some (clampIntersection ⟨botPosA.x, 0, botPosA.z⟩ intersection
        forgeConfig.clampDistance)

lemma P3.norm_nonneg (v : P3) : 0 ≤ P3.norm v := Real.sqrt_nonneg _

lemma P3.norm_scaled (v : P3) (k : ℝ) : P3.norm (v.scaled k) = |k| * P3.norm v := by
  unfold P3.norm P3.scaled
  simp only
  rw [show (v.x * k) ^ 2 + (v.y * k) ^ 2 + (v.z * k) ^ 2
      = k ^ 2 * (v.x ^ 2 + v.y ^ 2 + v.z ^ 2) by ring,
    Real.sqrt_mul (sq_nonneg k), Real.sqrt_sq_eq_abs]

lemma P3.distanceTo_add (botPos w : P3) :
    P3.distanceTo botPos (P3.add botPos w) = P3.norm w := by
  unfold P3.distanceTo P3.norm P3.sub P3.add
  simp only
  congr 1
  ring

/-- After `clampIntersection` with a non-negative bound the result is within
that bound of the bot. -/
lemma clampIntersection_dist_le (botPos p : P3) (m : ℝ) (hm : 0 ≤ m) :
    P3.distanceTo botPos (clampIntersection botPos p m) ≤ m := by
  unfold clampIntersection
  split
  case isTrue h =>
    rw [P3.distanceTo_add, P3.norm_scaled, P3.normalize, P3.norm_scaled]
    have hv : 0 < P3.norm (P3.sub p botPos) := by
      have : P3.distanceTo botPos p = P3.norm (P3.sub p botPos) := rfl
      linarith [this ▸ lt_of_le_of_lt hm h]
    rw [abs_of_nonneg hm, abs_of_nonneg (by positivity : (0:ℝ) ≤ 1 / P3.norm (P3.sub p botPos))]
    rw [one_div, inv_mul_cancel₀ hv.ne', mul_one]
  case isFalse h => linarith [not_lt.mp h]

/-- The horizontal (x-z) distance is at most the 3-D distance. -/
lemma hypot_le_distanceTo (q p : P3) :
    hypot (p.x - q.x) (p.z - q.z) ≤ P3.distanceTo q p := by
  unfold hypot P3.distanceTo P3.norm P3.sub
  simp only
  apply Real.sqrt_le_sqrt
  nlinarith [sq_nonneg (p.y - q.y)]

/-- C10 (amended).  Every non-null result of `findIntersection` has
`y ≥ 60` and lies within 5000 blocks — horizontally, indeed in 3-D — of the
second line's origin (taken at `y = 0`), because of the hard-coded
5000-block clamps.  (The inference to `calculateAccurateWitherSpawn` fails:
its final configurable clamp can rescale `y` below 60.) -/
theorem findIntersection_y_and_range (line1 line2 : Line3D) (r : P3)
    (h : findIntersection line1 line2 = some r) :
    60 ≤ r.y ∧ hypot (r.x - line2.origin.x) (r.z - line2.origin.z) ≤ 5000 := by
  unfold findIntersection at h
  split at h
  case isTrue => exact absurd h (by simp)
  case isFalse hden =>
    rw [Option.some.injEq] at h
    subst h
    refine ⟨le_max_left _ _, ?_⟩
    have hd := clampIntersection_dist_le (flatOrigin line2)
      (clampIntersection (flatOrigin line1) (rawIntersection line1 line2) 5000) 5000
      (by norm_num)
    have hh := hypot_le_distanceTo (flatOrigin line2)
      (clampIntersection (flatOrigin line2)
        (clampIntersection (flatOrigin line1) (rawIntersection line1 line2) 5000) 5000)
    calc hypot ((clampIntersection (flatOrigin line2)
            (clampIntersection (flatOrigin line1) (rawIntersection line1 line2) 5000)
            5000).x - line2.origin.x)
          ((clampIntersection (flatOrigin line2)
            (clampIntersection (flatOrigin line1) (rawIntersection line1 line2) 5000)
            5000).z - line2.origin.z)
        ≤ P3.distanceTo (flatOrigin line2)
            (clampIntersection (flatOrigin line2)
              (clampIntersection (flatOrigin line1) (rawIntersection line1 line2) 5000)
              5000) := hh
      _ ≤ 5000 := hd

lemma sqrt_6400 : Real.sqrt ((48 : ℝ) ^ 2 + 64 ^ 2 + 0 ^ 2) = 80 := by
  rw [show ((48 : ℝ) ^ 2 + 64 ^ 2 + 0 ^ 2) = 80 ^ 2 by norm_num,
    Real.sqrt_sq (by norm_num)]

lemma findIntersection_concrete :
    findIntersection ⟨⟨0, 0, 0⟩, ⟨1, 0, 0⟩⟩ ⟨⟨48, 0, -1⟩, ⟨0, 0, 1⟩⟩
      = some ⟨48, 64, 0⟩ := by
  have hraw : rawIntersection ⟨⟨0, 0, 0⟩, ⟨1, 0, 0⟩⟩ ⟨⟨48, 0, -1⟩, ⟨0, 0, 1⟩⟩
      = (⟨48, 64, 0⟩ : P3) := by
    unfold rawIntersection forgeT forgeDenom
    apply P3.ext_xyz <;> norm_num
  have hc1 : clampIntersection (flatOrigin ⟨⟨0, 0, 0⟩, ⟨1, 0, 0⟩⟩) ⟨48, 64, 0⟩ 5000
      = (⟨48, 64, 0⟩ : P3) := by
    unfold clampIntersection
    rw [if_neg]
    have hdist : P3.distanceTo (flatOrigin ⟨⟨0, 0, 0⟩, ⟨1, 0, 0⟩⟩) ⟨48, 64, 0⟩ = 80 := by
      show Real.sqrt (((48 : ℝ) - 0) ^ 2 + ((64 : ℝ) - 0) ^ 2 + ((0 : ℝ) - 0) ^ 2) = 80
      rw [show (((48 : ℝ) - 0) ^ 2 + ((64 : ℝ) - 0) ^ 2 + ((0 : ℝ) - 0) ^ 2)
          = (48 : ℝ) ^ 2 + 64 ^ 2 + 0 ^ 2 by norm_num]
      exact sqrt_6400
    rw [hdist]
    norm_num
  have hc2 : clampIntersection (flatOrigin ⟨⟨48, 0, -1⟩, ⟨0, 0, 1⟩⟩) ⟨48, 64, 0⟩ 5000
      = (⟨48, 64, 0⟩ : P3) := by
    unfold clampIntersection
    rw [if_neg]
    have hdist : P3.distanceTo (flatOrigin ⟨⟨48, 0, -1⟩, ⟨0, 0, 1⟩⟩) ⟨48, 64, 0⟩
        = Real.sqrt 4097 := by
      show Real.sqrt (((48 : ℝ) - 48) ^ 2 + ((64 : ℝ) - 0) ^ 2 + ((0 : ℝ) - -1) ^ 2)
        = Real.sqrt 4097
      norm_num
    rw [hdist]
    have : Real.sqrt 4097 ≤ 5000 := by
      rw [show (5000 : ℝ) = Real.sqrt (5000 ^ 2) from (Real.sqrt_sq (by norm_num)).symm]
      exact Real.sqrt_le_sqrt (by norm_num)
    linarith
  unfold findIntersection
  rw [if_neg (by norm_num [forgeDenom]), hraw, hc1, hc2]
  rw [show max (60 : ℝ) (64 : ℝ) = 64 from max_eq_right (by norm_num)]

/-- Witness for C10's amended theorem at a concrete perpendicular pair of
lines: the result `(48, 64, 0)` has `y ≥ 60` and is 1 block from the second
line's origin in the x-z plane. -/
theorem findIntersection_y_and_range_witness :
    findIntersection ⟨⟨0, 0, 0⟩, ⟨1, 0, 0⟩⟩ ⟨⟨48, 0, -1⟩, ⟨0, 0, 1⟩⟩
        = some ⟨48, 64, 0⟩ ∧
      60 ≤ (⟨48, 64, 0⟩ : P3).y ∧
        hypot ((⟨48, 64, 0⟩ : P3).x - (48 : ℝ)) ((⟨48, 64, 0⟩ : P3).z - (-1 : ℝ)) ≤ 5000 :=
  ⟨findIntersection_concrete,
   findIntersection_y_and_range ⟨⟨0, 0, 0⟩, ⟨1, 0, 0⟩⟩ ⟨⟨48, 0, -1⟩, ⟨0, 0, 1⟩⟩
     ⟨48, 64, 0⟩ findIntersection_concrete⟩

/-- C10 counterexample.  With a configured `clampDistance` of 40,
`calculateAccurateWitherSpawn`'s final clamp rescales the intersection
`(48, 64, 0)` (distance 80 from bot 1) to `(24, 32, 0)`: the returned `y` is
`32 < 60`, so the "`y ≥ 60` for `calculateAccurateWitherSpawn`" part of the
claim fails — the hard 5000-block/`y ≥ 60` guarantees of `findIntersection`
do not survive the configurable re-clamp. -/
theorem calculateAccurateWitherSpawn_y_below_60 :
    (calculateAccurateWitherSpawn ⟨0, 0, 0⟩ ⟨1, 0, 0⟩ ⟨48, 0, -1⟩ ⟨48, 0, 0⟩
        ⟨40, 60, 8⟩).map (fun r => (r.x, r.y, r.z))
      = some ((24 : ℝ), (32 : ℝ), (0 : ℝ)) ∧ (32 : ℝ) < 60 := by
  refine ⟨?_, by norm_num⟩
  have hline1 : calculateLine (⟨0, 0, 0⟩ : P3) ⟨1, 0, 0⟩
      = (⟨⟨0, 0, 0⟩, ⟨1, 0, 0⟩⟩ : Line3D) := by
    unfold calculateLine P3.sub
    norm_num
  have hline2 : calculateLine (⟨48, 0, -1⟩ : P3) ⟨48, 0, 0⟩
      = (⟨⟨48, 0, -1⟩, ⟨0, 0, 1⟩⟩ : Line3D) := by
    unfold calculateLine P3.sub
    norm_num
  have hclamp : clampIntersection ⟨(0 : ℝ), 0, 0⟩ ⟨48, 64, 0⟩ 40
      = (⟨24, 32, 0⟩ : P3) := by
    unfold clampIntersection
    have hsub : P3.sub ⟨48, 64, 0⟩ ⟨(0 : ℝ), 0, 0⟩ = (⟨48, 64, 0⟩ : P3) := by
      unfold P3.sub
      norm_num
    have hdist : P3.distanceTo (⟨(0 : ℝ), 0, 0⟩ : P3) ⟨48, 64, 0⟩ = 80 := by
      unfold P3.distanceTo
      rw [hsub]
      exact sqrt_6400
    rw [if_pos (by rw [hdist]; norm_num), hsub]
    unfold P3.normalize P3.add P3.scaled
    rw [show P3.norm ⟨48, 64, 0⟩ = 80 from sqrt_6400]
    apply P3.ext_xyz <;> norm_num
  unfold calculateAccurateWitherSpawn
  rw [hline1, hline2, findIntersection_concrete]
  dsimp only
  rw [hclamp]
  rfl

/-! ### `src/Foundry.ts`: the coincidence gate (claim C9) -/

/-- A soundwave record as the listeners emit it: the observer's position
`bPosition` and the reported sound position `wPosition`. -/
structure Soundwave where
  bPosition : P3
  wPosition : P3

/-- JavaScript `Map.set` on the `soundCache`, keyed by account number:
replace the value in place when the key exists (keeping insertion order),
otherwise append a new entry. -/
def mapSet : List (ℕ × Soundwave) → ℕ → Soundwave → List (ℕ × Soundwave)
  | [], acc, wave => [(acc, wave)]
  | (k, w) :: rest, acc, wave =>
      if k = acc then (k, wave) :: rest else (k, w) :: mapSet rest acc wave

/-- One step of the `soundwave` handler in `startListeners`
(`src/Foundry.ts`): `soundCache.set(acc, wave)`; when the cache size then
equals the number of active listeners, seal — run the calculation on the
cache and clear it — otherwise leave the batch open.  Returns the new cache
and the sealed batch, if any.  (The first variant hard-codes 2 listeners and
the second 3; the count is the `activeListeners` parameter here.) -/
def foundryStep (activeListeners : ℕ) (soundCache : List (ℕ × Soundwave))
    (acc : ℕ) (wave : Soundwave) :
    List (ℕ × Soundwave) × Option (List (ℕ × Soundwave)) :=
  if (mapSet soundCache acc wave).length = activeListeners
  then ([], some (mapSet soundCache acc wave))
  else (mapSet soundCache acc wave, none)

/-- The contributor set of a cache: its account keys, in insertion order. -/
def contributors (soundCache : List (ℕ × Soundwave)) : List ℕ :=
  soundCache.map Prod.fst

lemma mapSet_contributors_of_mem :
    ∀ (soundCache : List (ℕ × Soundwave)) (acc : ℕ) (wave : Soundwave),
      acc ∈ contributors soundCache →
        contributors (mapSet soundCache acc wave) = contributors soundCache := by
  intro soundCache
  induction soundCache with
  | nil => intro acc wave h; simp [contributors] at h
  | cons kw rest ih =>
      intro acc wave h
      obtain ⟨k, w⟩ := kw
      unfold mapSet
      by_cases hk : k = acc
      · rw [if_pos hk]
        simp [contributors]
      · rw [if_neg hk]
        have hmem : acc ∈ contributors rest := by
          simp [contributors] at h ⊢
          rcases h with h | h
          · exact absurd h.symm hk
          · exact h
        show k :: contributors (mapSet rest acc wave) = k :: contributors rest
        rw [ih acc wave hmem]

lemma mapSet_length_of_mem (soundCache : List (ℕ × Soundwave)) (acc : ℕ)
    (wave : Soundwave) (h : acc ∈ contributors soundCache) :
    (mapSet soundCache acc wave).length = soundCache.length := by
  have := congrArg List.length (mapSet_contributors_of_mem soundCache acc wave h)
  simpa [contributors] using this

/-- C9 (amended).  When an open batch receives a hint from an observer
already in its contributor set, the gate overwrites that observer's cached
wave: the contributor set is unchanged, nothing is sealed or forwarded, and
no new batch is started — the batch seals only when the cache size reaches
the listener count. -/
theorem duplicate_hint_keeps_batch_open (activeListeners : ℕ)
    (soundCache : List (ℕ × Soundwave)) (acc : ℕ) (wave : Soundwave)
    (hdup : acc ∈ contributors soundCache)
    (hopen : soundCache.length < activeListeners) :
    foundryStep activeListeners soundCache acc wave
        = (mapSet soundCache acc wave, none) ∧
      contributors (mapSet soundCache acc wave) = contributors soundCache := by
  refine ⟨?_, mapSet_contributors_of_mem soundCache acc wave hdup⟩
  unfold foundryStep
  rw [if_neg]
  rw [mapSet_length_of_mem soundCache acc wave hdup]
  exact Nat.ne_of_lt hopen

/-- Witness for C9's amended theorem on a concrete two-entry cache with
three listeners. -/
theorem duplicate_hint_keeps_batch_open_witness :
    (1 ∈ contributors [(1, ⟨⟨0, 0, 0⟩, ⟨1, 2, 3⟩⟩), (2, ⟨⟨5, 5, 5⟩, ⟨6, 6, 6⟩⟩)] ∧
      ([(1, (⟨⟨0, 0, 0⟩, ⟨1, 2, 3⟩⟩ : Soundwave)),
        (2, ⟨⟨5, 5, 5⟩, ⟨6, 6, 6⟩⟩)]).length < 3) ∧
      foundryStep 3 [(1, ⟨⟨0, 0, 0⟩, ⟨1, 2, 3⟩⟩), (2, ⟨⟨5, 5, 5⟩, ⟨6, 6, 6⟩⟩)] 1
          ⟨⟨0, 0, 0⟩, ⟨9, 9, 9⟩⟩
        = (mapSet [(1, ⟨⟨0, 0, 0⟩, ⟨1, 2, 3⟩⟩), (2, ⟨⟨5, 5, 5⟩, ⟨6, 6, 6⟩⟩)] 1
            ⟨⟨0, 0, 0⟩, ⟨9, 9, 9⟩⟩, none) ∧
        contributors (mapSet [(1, ⟨⟨0, 0, 0⟩, ⟨1, 2, 3⟩⟩), (2, ⟨⟨5, 5, 5⟩, ⟨6, 6, 6⟩⟩)] 1
            ⟨⟨0, 0, 0⟩, ⟨9, 9, 9⟩⟩)
          = contributors [(1, ⟨⟨0, 0, 0⟩, ⟨1, 2, 3⟩⟩), (2, ⟨⟨5, 5, 5⟩, ⟨6, 6, 6⟩⟩)] :=
  ⟨⟨by simp [contributors], by simp⟩,
   duplicate_hint_keeps_batch_open 3 _ 1 _ (by simp [contributors]) (by simp)⟩

/-- C9 counterexample.  An open 2-contributor batch (3 listeners expected)
receiving a duplicate hint from account 1 is neither sealed nor restarted:
the step returns `none` (no batch forwarded) and the cache still has both
contributors, with account 1's wave overwritten — not a fresh batch holding
only the new hint. -/
theorem duplicate_hint_does_not_seal :
    foundryStep 3 [(1, ⟨⟨0, 0, 0⟩, ⟨1, 2, 3⟩⟩), (2, ⟨⟨5, 5, 5⟩, ⟨6, 6, 6⟩⟩)] 1
        ⟨⟨0, 0, 0⟩, ⟨9, 9, 9⟩⟩
      = ([(1, ⟨⟨0, 0, 0⟩, ⟨9, 9, 9⟩⟩), (2, ⟨⟨5, 5, 5⟩, ⟨6, 6, 6⟩⟩)], none) := rfl

end FF
